import Mathlib

/-!
Verification of the changelog-generator repository (Go) against its
natural-language specification, via a shallow embedding in Lean 4.

Modelling conventions:
* Go strings are Lean `String`s.  The identifiers sliced by the code
  (commit SHAs) and the fixed fences/separators are ASCII, so Go's
  byte-indexed slicing agrees with Lean's character-indexed `take`/`drop`.
* Go string slicing `s[:n]` panics when `n > len(s)`; it is embedded as
  `goSlice`, which returns `none` exactly in the panicking case.  Functions
  that may panic therefore return `Option _`, `none` meaning a panic.
* `float64` importance scores are embedded as `ℚ`: the code only ever
  compares scores against constant thresholds and renders them, it never
  does float arithmetic, so ordered-field comparisons are faithful.
* `time.Time` values are embedded as `Int` instants (comparison is all the
  code does with them, besides display formatting, see `fmtDate`).
* Go `map[string]T` values are embedded as association lists
  `List (String × T)` whose keys are unique; the list order stands for the
  map's iteration order, which Go deliberately leaves unspecified, so two
  lists that are permutations of each other denote the same map value.
* External effects (GitHub API, OpenAI API, `encoding/json` decoding) are
  parameters of the functions that perform them.
-/

/-- Go `unicode.IsSpace` restricted to the Latin-1 range (the only
whitespace the code paths under verification can meet). -/
def goIsSpace (c : Char) : Bool :=
  c = ' ' || c = '\t' || c = '\n' || (c = Char.ofNat 11) || (c = Char.ofNat 12) ||
  c = '\r' || (c = Char.ofNat 0x85) || (c = Char.ofNat 0xA0)

/-- Go `strings.TrimSpace`. -/
def goTrimSpace (s : String) : String :=
  ⟨((s.data.dropWhile goIsSpace).reverse.dropWhile goIsSpace).reverse⟩

/-- Go `strings.HasPrefix`. -/
def goHasPre (s p : String) : Bool := p.data.isPrefixOf s.data

/-- Go `strings.HasSuffix`. -/
def goHasSuf (s p : String) : Bool := p.data.isSuffixOf s.data

/-- Go `strings.TrimPrefix`. -/
def goTrimPre (s p : String) : String :=
  if goHasPre s p then ⟨s.data.drop p.data.length⟩ else s

/-- Go `strings.TrimSuffix`. -/
def goTrimSuf (s p : String) : String :=
  if goHasSuf s p then ⟨s.data.take (s.data.length - p.data.length)⟩ else s

/-- Go string slicing `s[:n]`: `none` models the out-of-range panic. -/
def goSlice (s : String) (n : Nat) : Option String :=
  if n ≤ s.length then some (s.take n) else none

/-- Go `strings.Split(s, "\n")`. -/
def goSplitLines (s : String) : List String := s.splitOn "\n"

/-- Right-nested concatenation of the strings produced from a list
(the order in which a Go loop appends to a `strings.Builder`). -/
def joinMap {α : Type} (f : α → String) : List α → String
  | [] => ""
  | a :: l => f a ++ joinMap f l

/-- Stand-in for Go `%d` on the integers rendered by the code. -/
def fmtNat (n : Nat) : String := toString n

/-- Stand-in for Go `time.Time.Format`: renders the instant.  The claims
never depend on the rendered text, only on which instant is rendered. -/
def fmtDate (d : Int) : String := toString d

/-- Embeds `pkg/config.Config`: the configuration fields read by the functions
under verification. -/
structure Config where
  repoOwner : String
  repoName : String
  includeAuthors : Bool
  showScores : Bool
  minScore : ℚ
deriving DecidableEq

/-- Embeds `pkg/llm.ChangelogEntry` (revision with `importance_score`). -/
structure ChangelogEntry where
  sha : String
  title : String
  description : String
  author : String
  importanceScore : ℚ
deriving DecidableEq

/-- Embeds `pkg/llm.ChangelogResponse`.  `categories` embeds the Go map
`map[string][]ChangelogEntry` as an association list; its order stands for
the unspecified map iteration order. -/
structure ChangelogResponse where
  summary : String
  highlights : List String
  categories : List (String × List ChangelogEntry)
deriving DecidableEq

/-- Embeds `generator.CategoryEmojis`. -/
def CategoryEmojis : List (String × String) :=
  [("Features", "🚀"), ("Improvements", "⚡"), ("Bug Fixes", "🐛"),
   ("Breaking Changes", "💥"), ("Documentation", "📚"), ("Internal", "🔧")]

/-- Embeds `generator.CategoryOrder`. -/
def CategoryOrder : List String :=
  ["Breaking Changes", "Features", "Improvements", "Bug Fixes",
   "Documentation", "Internal"]

/-- Emoji selection in `FormatMarkdown`: map lookup (zero value `""` when
absent) followed by the `"•"` fallback. -/
def emojiFor (cat : String) : String :=
  let e := (CategoryEmojis.lookup cat).getD ""
  if e = "" then "•" else e

/-- Embeds `generator.getScoreIndicator`. -/
def getScoreIndicator (score : ℚ) : String :=
  if 9 ≤ score then "🔴"
  else if 7 ≤ score then "🟠"
  else if 5 ≤ score then "🟡"
  else if 3 ≤ score then "🟢"
  else "⚪"

/-- Decimal rendering of a score at one fractional digit, standing in for
Go's `%.1f` (the claims never depend on the rendered digits). -/
def fmtRat1 (q : ℚ) : String :=
  let n : Int := ⌊q * 10 + 1 / 2⌋
  (if n < 0 then "-" else "") ++ fmtNat (n.natAbs / 10) ++ "." ++ fmtNat (n.natAbs % 10)

/-- The commit URL built by `FormatMarkdown`. -/
def commitLink (cfg : Config) (sha : String) : String :=
  "https://github.com/" ++ cfg.repoOwner ++ "/" ++ cfg.repoName ++ "/commit/" ++ sha

/-- Short display SHA in `FormatMarkdown`: `s[:7]` guarded by a length
check, so the slice can never be out of range. -/
def shortSHA (sha : String) : Option String :=
  if sha.length > 7 then goSlice sha 7 else some sha

/-- Total description of the value `shortSHA` produces. -/
def shortDisplay (sha : String) : String :=
  if sha.length > 7 then sha.take 7 else sha

/-- The optional score badge: `" 🔴 **[9.1]**"` when `ShowScores` is set. -/
def scoreBadge (cfg : Config) (e : ChangelogEntry) : String :=
  if cfg.showScores then
    " " ++ getScoreIndicator e.importanceScore ++ " **[" ++ fmtRat1 e.importanceScore ++ "]**"
  else ""

/-- The optional `" by @author"` suffix. -/
def authorSuffix (cfg : Config) (e : ChangelogEntry) : String :=
  if cfg.includeAuthors && !(e.author == "") then " by @" ++ e.author else ""

/-- The indented description block under an entry. -/
def renderDescription (desc : String) : String :=
  if desc = "" then ""
  else joinMap (fun line => if line = "" then "" else "  " ++ line ++ "\n") (goSplitLines desc)

/-- One rendered entry line (plus description), `none` if the SHA slice
would panic. -/
def renderEntry (cfg : Config) (e : ChangelogEntry) : Option String :=
  (shortSHA e.sha).map fun s7 =>
    "- **" ++ e.title ++ "** ([`" ++ s7 ++ "`](" ++ commitLink cfg e.sha ++ "))" ++
    scoreBadge cfg e ++ authorSuffix cfg e ++ "\n" ++ renderDescription e.description ++ "\n"

/-- Total description of the value `renderEntry` produces. -/
def entryText (cfg : Config) (e : ChangelogEntry) : String :=
  "- **" ++ e.title ++ "** ([`" ++ shortDisplay e.sha ++ "`](" ++ commitLink cfg e.sha ++ "))" ++
  scoreBadge cfg e ++ authorSuffix cfg e ++ "\n" ++ renderDescription e.description ++ "\n"

/-- The minimum-score skip in `FormatMarkdown`'s entry loops:
`cfg.MinScore > 0 && entry.ImportanceScore < cfg.MinScore ⇒ continue`. -/
def keepEntry (cfg : Config) (e : ChangelogEntry) : Bool :=
  !(decide (0 < cfg.minScore) && decide (e.importanceScore < cfg.minScore))

/-- The entry loop shared by both category loops of `FormatMarkdown`. -/
def renderEntries (cfg : Config) : List ChangelogEntry → Option String
  | [] => some ""
  | e :: rest =>
    if keepEntry cfg e then do
      let s ← renderEntry cfg e
      let r ← renderEntries cfg rest
      pure (s ++ r)
    else renderEntries cfg rest

/-- A category section: header line then the rendered entries. -/
def renderCategorySection (cfg : Config) (emoji cat : String)
    (entries : List ChangelogEntry) : Option String :=
  (renderEntries cfg entries).map fun body => "## " ++ emoji ++ " " ++ cat ++ "\n\n" ++ body

/-- Body of the known-category loop for one name of `CategoryOrder`:
skip when absent or empty (the emptiness test happens before any score
filtering), otherwise emit the section. -/
def knownCategoryBlock (cfg : Config) (cats : List (String × List ChangelogEntry))
    (cat : String) : Option String :=
  match cats.lookup cat with
  | none => some ""
  | some entries =>
    if entries.isEmpty then some ""
    else renderCategorySection cfg (emojiFor cat) cat entries

/-- The known-category loop of `FormatMarkdown` (iterates `CategoryOrder`). -/
def renderKnownCategories (cfg : Config) (cats : List (String × List ChangelogEntry)) :
    List String → Option String
  | [] => some ""
  | c :: rest => do
    let s ← knownCategoryBlock cfg cats c
    let r ← renderKnownCategories cfg cats rest
    pure (s ++ r)

/-- The `alreadyProcessed` scan over `CategoryOrder`. -/
def isKnownCategory (cat : String) : Bool := CategoryOrder.contains cat

/-- The unknown-category loop of `FormatMarkdown`: iterates the categories
map (in its unspecified iteration order, here the list order), skipping
known and empty categories; unknown sections use the `"•"` glyph. -/
def renderUnknownCategories (cfg : Config) :
    List (String × List ChangelogEntry) → Option String
  | [] => some ""
  | (cat, entries) :: rest =>
    if isKnownCategory cat || entries.isEmpty then renderUnknownCategories cfg rest
    else do
      let s ← renderCategorySection cfg "•" cat entries
      let r ← renderUnknownCategories cfg rest
      pure (s ++ r)

/-- The title line of `FormatMarkdown`. -/
def titlePart (fromRef toRef : String) : String :=
  "# Changelog: " ++ fromRef ++ " → " ++ toRef ++ "\n\n"

/-- The optional Summary section. -/
def summaryPart (s : String) : String :=
  if s = "" then "" else "## Summary\n\n" ++ s ++ "\n\n"

/-- The optional Highlights section. -/
def highlightsPart (hs : List String) : String :=
  if hs.isEmpty then ""
  else "## Highlights\n\n" ++ joinMap (fun h => "- ⭐ " ++ h ++ "\n") hs ++ "\n"

/-- Embeds `generator.FormatMarkdown` (current revision, with score filtering and
the guarded short SHA).  `none` models a panic. -/
def FormatMarkdown (resp : ChangelogResponse) (fromRef toRef : String)
    (cfg : Config) : Option String := do
  let known ← renderKnownCategories cfg resp.categories CategoryOrder
  let unknown ← renderUnknownCategories cfg resp.categories
  pure (titlePart fromRef toRef ++ summaryPart resp.summary ++
        highlightsPart resp.highlights ++ known ++ unknown)

/-- Embeds `github.TagInfo` (the fields read by timeline resolution). -/
structure TagInfo where
  name : String
  commitDate : Int
deriving DecidableEq

/-- Embeds `github.ReleaseInfo` (the fields read by timeline resolution). -/
structure ReleaseInfo where
  tagName : String
  publishedAt : Int
  draft : Bool
  prerelease : Bool
deriving DecidableEq

/-- Embeds `github.ReleaseRef`. -/
structure ReleaseRef where
  name : String
  date : Int
  type : String
  isPrerelease : Bool
deriving DecidableEq

/-- Embeds `github.FileChange`. -/
structure FileChange where
  filename : String
  status : String
  additions : Nat
  deletions : Nat
  patch : String
deriving DecidableEq

/-- Embeds `github.CommitData` (stats inlined). -/
structure CommitData where
  sha : String
  message : String
  author : String
  date : Int
  filesChanged : List FileChange
  statsAdditions : Nat
  statsDeletions : Nat
deriving DecidableEq

/-- Embeds `github.TimelineRelease` (the fields built by `GetTimelineReleases`). -/
structure TimelineRelease where
  fromRef : String
  toRef : String
  fromDate : Int
  toDate : Int
  commitCount : Nat
  commits : List CommitData
deriving DecidableEq

/-- Go map assignment `m[k] = v` on the association-list embedding:
replace the binding when the key is present, append it otherwise. -/
def mapAssign (m : List (String × ReleaseRef)) (k : String) (v : ReleaseRef) :
    List (String × ReleaseRef) :=
  if m.any (fun p => p.1 = k) then
    m.map (fun p => if p.1 = k then (k, v) else p)
  else m ++ [(k, v)]

/-- The inclusive date-window test used for both tags and releases:
`d.Equal(lo) || d.After(lo)` and `d.Equal(hi) || d.Before(hi)`. -/
def inWindow (lo hi d : Int) : Bool := lo ≤ d && d ≤ hi

/-- Loop body seeding the merge map from one tag (window "[lo, hi]"
inclusive on both ends). -/
def tagStep (lo hi : Int) (m : List (String × ReleaseRef)) (tag : TagInfo) :
    List (String × ReleaseRef) :=
  if inWindow lo hi tag.commitDate then
    mapAssign m tag.name
      { name := tag.name, date := tag.commitDate, type := "tag", isPrerelease := false }
  else m

/-- Loop body merging one release: drafts are skipped unconditionally, a
release in the window overwrites any same-name entry with release data. -/
def relStep (lo hi : Int) (m : List (String × ReleaseRef)) (rel : ReleaseInfo) :
    List (String × ReleaseRef) :=
  if rel.draft then m
  else if inWindow lo hi rel.publishedAt then
    mapAssign m rel.tagName
      { name := rel.tagName, date := rel.publishedAt, type := "release",
        isPrerelease := rel.prerelease }
  else m

/-- Embeds `github.Client.GetReleaseRefsInTimeline`, parametrized by the fetched
tag and release lists (the two paginated API calls).  Tags seed the map,
non-draft releases overwrite same-name entries, then the map's values are
sorted ascending by date.  Go's `sort.Slice` is an unstable comparison
sort and the order of equal dates is unspecified; the embedding picks
`insertionSort` on the same strict comparator, and no claim depends on
the order of ties. -/
def GetReleaseRefsInTimeline (tags : List TagInfo) (releases : List ReleaseInfo)
    (lo hi : Int) : List ReleaseRef :=
  let m1 := tags.foldl (tagStep lo hi) []
  let m2 := releases.foldl (relStep lo hi) m1
  (m2.map Prod.snd).insertionSort (fun a b => a.date < b.date)

/-- The consecutive-pair loop of `GetTimelineReleases`:
`for i := 0; i < len(refs)-1; i++` fetching `refs[i].Name..refs[i+1].Name`. -/
def segmentsLoop (fetch : String → String → Except String (List CommitData)) :
    List ReleaseRef → Except String (List TimelineRelease)
  | a :: b :: rest =>
    match fetch a.name b.name with
    | .error e => .error ("get commits " ++ a.name ++ ".." ++ b.name ++ ": " ++ e)
    | .ok commits =>
      match segmentsLoop fetch (b :: rest) with
      | .error e => .error e
      | .ok rem =>
        .ok ({ fromRef := a.name, toRef := b.name, fromDate := a.date, toDate := b.date,
               commitCount := commits.length, commits := commits } :: rem)
  | _ => .ok []

/-- Embeds `github.Client.GetTimelineReleases`, parametrized by the commit-range
fetcher and the tag/release lists the API returned. -/
def GetTimelineReleases (fetch : String → String → Except String (List CommitData))
    (tags : List TagInfo) (releases : List ReleaseInfo) (lo hi : Int) :
    Except String (List TimelineRelease) :=
  let refs := GetReleaseRefsInTimeline tags releases lo hi
  if refs.length = 0 then
    .error ("no tags or releases found between " ++ fmtDate lo ++ " and " ++ fmtDate hi)
  else segmentsLoop fetch refs

/-- Embeds `llm.TruncateDiff`. -/
def TruncateDiff (diff : String) (maxLines : Nat) : String :=
  let lines := goSplitLines diff
  if lines.length ≤ maxLines then diff
  else
    String.intercalate "\n" (lines.take maxLines) ++
    "\n... (" ++ fmtNat (lines.length - maxLines) ++ " more lines truncated)"

/-- The `+`/`-` counting loop of `SummarizeDiff` (the `else if` chain of
the Go loop, folded over the lines). -/
def countDiffLines (lines : List String) : Nat × Nat :=
  lines.foldl (fun (acc : Nat × Nat) line =>
    if goHasPre line "+" && !(goHasPre line "+++") then (acc.1 + 1, acc.2)
    else if goHasPre line "-" && !(goHasPre line "---") then (acc.1, acc.2 + 1)
    else acc) (0, 0)

/-- Embeds `llm.SummarizeDiff`. -/
def SummarizeDiff (diff : String) : String :=
  if diff = "" then ""
  else
    let counts := countDiffLines (goSplitLines diff)
    "+" ++ fmtNat counts.1 ++ "/-" ++ fmtNat counts.2 ++ " lines. Sample:\n" ++
    TruncateDiff diff 10

/-- Embeds `llm.CommitInfo`. -/
structure CommitInfo where
  sha : String
  message : String
  author : String
  date : Int
  filesChanged : List String
  diffSummary : String
  stats : String
deriving DecidableEq

/-- Embeds `llm.ChangelogRequest`. -/
structure ChangelogRequest where
  commits : List CommitInfo
  repoName : String
  fromRef : String
  toRef : String
deriving DecidableEq

/-- Loop body collecting `significantChanges` in `prepareCommitsForLLM`:
only files with more than 10 changed lines and a non-empty patch whose
summary is non-empty contribute. -/
def sigStep (acc : List String) (f : FileChange) : List String :=
  if f.additions + f.deletions > 10 then
    if !(f.patch == "") then
      let summary := SummarizeDiff f.patch
      if !(summary == "") then acc ++ [f.filename ++ ": " ++ summary] else acc
    else acc
  else acc

/-- The per-commit body of `generator.prepareCommitsForLLM`. -/
def prepareCommit (c : CommitData) : CommitInfo :=
  let fileNames := c.filesChanged.map (fun f => f.filename)
  let fileNames :=
    if fileNames.length > 20 then
      fileNames.take 20 ++ ["... and " ++ fmtNat (fileNames.length - 20) ++ " more files"]
    else fileNames
  let significantChanges := c.filesChanged.foldl sigStep []
  let diffSummary :=
    if significantChanges.length > 0 then
      let sc := if significantChanges.length > 3 then significantChanges.take 3
                else significantChanges
      String.intercalate "\n" sc
    else ""
  { sha := c.sha, message := c.message, author := c.author, date := c.date,
    filesChanged := fileNames, diffSummary := diffSummary,
    stats := "+" ++ fmtNat c.statsAdditions ++ "/-" ++ fmtNat c.statsDeletions }

/-- Embeds `generator.prepareCommitsForLLM`. -/
def prepareCommitsForLLM (commits : List CommitData) : List CommitInfo :=
  commits.map prepareCommit

/-- Per-commit block of `llm.BuildChangelogPrompt`: contains the
unguarded slice `commit.SHA[:8]`, so `none` models its panic. -/
def commitBlock (i : Nat) (commit : CommitInfo) : Option String :=
  (goSlice commit.sha 8).map fun s8 =>
    fmtNat (i + 1) ++ ". Commit: " ++ s8 ++ "\n" ++
    "   Author: " ++ commit.author ++ "\n" ++
    "   Date: " ++ fmtDate commit.date ++ "\n" ++
    "   Message: " ++ commit.message ++ "\n" ++
    (if commit.filesChanged.length > 0 then
      "   Files: " ++ String.intercalate ", " commit.filesChanged ++ "\n" else "") ++
    (if commit.stats = "" then "" else "   Stats: " ++ commit.stats ++ "\n") ++
    (if commit.diffSummary = "" then "" else "   Changes: " ++ commit.diffSummary ++ "\n") ++
    "\n"

/-- The indexed commit loop of `BuildChangelogPrompt`. -/
def commitBlocks (i : Nat) : List CommitInfo → Option String
  | [] => some ""
  | c :: rest => do
    let s ← commitBlock i c
    let r ← commitBlocks (i + 1) rest
    pure (s ++ r)

/-- Everything `BuildChangelogPrompt` writes before the commit loop. -/
def changelogPromptHeader (req : ChangelogRequest) : String :=
  "You are a technical writer creating a changelog for a software release.\n\n" ++
  "Repository: " ++ req.repoName ++ "\n" ++
  "Range: " ++ req.fromRef ++ " → " ++ req.toRef ++ "\n\n" ++
  "Total commits: " ++ fmtNat req.commits.length ++ "\n\n" ++
  "Commits (most recent first):\n" ++
  "---\n\n"

/-- Everything `BuildChangelogPrompt` writes after the commit loop
(fixed instruction text; braces of the JSON template escaped). -/
def changelogPromptFooter : String :=
  "---\n\n" ++
  "Generate a structured changelog with:\n\n" ++
  "1. **Categories**: Organize commits into these categories:\n" ++
  "   - Features: New functionality or capabilities\n" ++
  "   - Improvements: Enhancements to existing features\n" ++
  "   - Bug Fixes: Bug fixes and error corrections\n" ++
  "   - Breaking Changes: Changes that break backward compatibility\n" ++
  "   - Documentation: Documentation updates\n" ++
  "   - Internal: Internal changes, refactoring, or dependencies\n\n" ++
  "2. **For each commit**:\n" ++
  "   - title: Concise, user-facing title (max 80 chars)\n" ++
  "   - description: Brief explanation of the impact (1-2 sentences)\n" ++
  "   - importance_score: Rate 0-10 (10=critical/major impact, 5=moderate, 1=minor)\n" ++
  "   - Include the SHA and author\n\n" ++
  "3. **Top highlights**: Select 3-5 most important changes across all categories\n\n" ++
  "4. **Release summary**: Write 2-3 sentences summarizing this release\n\n" ++
  "Output ONLY valid JSON with this structure:\n" ++
  "\x7b\n" ++
  "  \"summary\": \"2-3 sentence release summary\",\n" ++
  "  \"highlights\": [\"highlight 1\", \"highlight 2\", \"highlight 3\"],\n" ++
  "  \"categories\": \x7b\n" ++
  "    \"Features\": [\n" ++
  "      \x7b\"sha\": \"abc123\", \"title\": \"...\", \"description\": \"...\", \"author\": \"...\", \"importance_score\": 8.5\x7d\n" ++
  "    ],\n" ++
  "    \"Bug Fixes\": [...],\n" ++
  "    ...\n" ++
  "  \x7d\n" ++
  "\x7d\n\n" ++
  "Importance Score Guidelines:\n" ++
  "- 9-10: Critical/Breaking changes, major new features, security fixes\n" ++
  "- 7-8: Significant features, important bug fixes, notable improvements\n" ++
  "- 5-6: Moderate features/fixes, useful enhancements\n" ++
  "- 3-4: Minor features/fixes, small improvements\n" ++
  "- 1-2: Trivial changes, documentation, internal refactoring\n\n" ++
  "Important:\n" ++
  "- Only include categories that have commits\n" ++
  "- Write from the user's perspective (what changed for them)\n" ++
  "- Be concise and clear\n" ++
  "- Use the exact category names listed above\n" ++
  "- Include importance_score for EVERY commit\n" ++
  "- Output ONLY the JSON, no additional text\n"

/-- Embeds `llm.BuildChangelogPrompt` (revision with importance scores).
`none` models the out-of-range panic of `commit.SHA[:8]`. -/
def BuildChangelogPrompt (req : ChangelogRequest) : Option String := do
  let blocks ← commitBlocks 0 req.commits
  pure (changelogPromptHeader req ++ blocks ++ changelogPromptFooter)

/-- The response cleanup of `llm.ParseChangelogResponse`: trim space,
strip a leading ` ```json ` fence, a leading/trailing ` ``` ` fence, and
trim space again. -/
def goCleanup (s : String) : String :=
  goTrimSpace (goTrimSuf (goTrimPre (goTrimPre (goTrimSpace s) "```json") "```") "```")

/-- Embeds `llm.ParseChangelogResponse`, parametrized by the external
`encoding/json` decoding into the typed response value. -/
def ParseChangelogResponse {R : Type} (unmarshal : String → Except String R)
    (jsonStr : String) : Except String R :=
  match unmarshal (goCleanup jsonStr) with
  | .error e => .error ("parse JSON response: " ++ e)
  | .ok r => .ok r

/-- Embeds `generator.Changelog`. -/
structure Changelog where
  summary : String
  highlights : List String
  categories : List (String × List ChangelogEntry)
  markdown : String
  fromRef : String
  toRef : String
  repoName : String

/-- Embeds `generator.Generator.Generate`, parametrized by the commit-range fetch
(GitHub) and the remote changelog generation (OpenAI round trip).  The
outer `Option` threads the possible `FormatMarkdown` panic; the inner
`Except` is the function's Go error result. -/
def Generate (fetch : String → String → Except String (List CommitData))
    (llmGen : ChangelogRequest → Except String ChangelogResponse)
    (cfg : Config) (fromRef toRef : String) : Option (Except String Changelog) :=
  match fetch fromRef toRef with
  | .error e => some (.error ("fetch commits: " ++ e))
  | .ok commits =>
    if commits.length = 0 then
      some (.error ("no commits found in range " ++ fromRef ++ ".." ++ toRef))
    else
      let commitInfos := prepareCommitsForLLM commits
      match llmGen { commits := commitInfos,
                     repoName := cfg.repoOwner ++ "/" ++ cfg.repoName,
                     fromRef := fromRef, toRef := toRef } with
      | .error e => some (.error ("generate changelog: " ++ e))
      | .ok resp =>
        (FormatMarkdown resp fromRef toRef cfg).map fun md =>
          .ok { summary := resp.summary, highlights := resp.highlights,
                categories := resp.categories, markdown := md,
                fromRef := fromRef, toRef := toRef,
                repoName := cfg.repoOwner ++ "/" ++ cfg.repoName }

/-- Total description of the value `renderEntries` produces: the kept
entries, rendered in order. -/
def entriesText (cfg : Config) (l : List ChangelogEntry) : String :=
  joinMap (entryText cfg) (l.filter (keepEntry cfg))

/-- Total description of the value `knownCategoryBlock` produces. -/
def knownBlockText (cfg : Config) (cats : List (String × List ChangelogEntry))
    (cat : String) : String :=
  match cats.lookup cat with
  | none => ""
  | some entries =>
    if entries.isEmpty then ""
    else "## " ++ emojiFor cat ++ " " ++ cat ++ "\n\n" ++ entriesText cfg entries

/-- The unknown-category selection of `FormatMarkdown`'s second loop:
a category is rendered there iff it is not in `CategoryOrder` and has
entries. -/
def isRenderedUnknown (ce : String × List ChangelogEntry) : Bool :=
  !(isKnownCategory ce.1 || ce.2.isEmpty)

/-- Total description of the value `renderUnknownCategories` produces. -/
def unknownText (cfg : Config) (cats : List (String × List ChangelogEntry)) : String :=
  joinMap (fun ce => "## • " ++ ce.1 ++ "\n\n" ++ entriesText cfg ce.2)
    (cats.filter isRenderedUnknown)

/-- Total description of the value `FormatMarkdown` produces. -/
def markdownText (resp : ChangelogResponse) (fromRef toRef : String)
    (cfg : Config) : String :=
  titlePart fromRef toRef ++ summaryPart resp.summary ++
  highlightsPart resp.highlights ++
  joinMap (knownBlockText cfg resp.categories) CategoryOrder ++
  unknownText cfg resp.categories

theorem strTake_all {s : String} {n : Nat} (h : s.length ≤ n) : s.take n = s := by
  apply String.ext
  rw [String.data_take]
  exact List.take_of_length_le (by rw [String.length_data]; exact h)

theorem shortSHA_eq (sha : String) : shortSHA sha = some (shortDisplay sha) := by
  by_cases h : sha.length > 7
  · simp [shortSHA, shortDisplay, goSlice, h, Nat.le_of_lt h]
  · simp [shortSHA, shortDisplay, h]

theorem renderEntry_eq (cfg : Config) (e : ChangelogEntry) :
    renderEntry cfg e = some (entryText cfg e) := by
  simp [renderEntry, entryText, shortSHA_eq]

theorem renderEntries_eq (cfg : Config) (l : List ChangelogEntry) :
    renderEntries cfg l = some (entriesText cfg l) := by
  induction l with
  | nil => rfl
  | cons e rest ih =>
    by_cases h : keepEntry cfg e
    · simp [renderEntries, h, renderEntry_eq, ih, entriesText, List.filter_cons, joinMap]
    · simp [renderEntries, h, ih, entriesText, List.filter_cons]

theorem knownCategoryBlock_eq (cfg : Config) (cats : List (String × List ChangelogEntry))
    (cat : String) : knownCategoryBlock cfg cats cat = some (knownBlockText cfg cats cat) := by
  unfold knownCategoryBlock knownBlockText
  cases cats.lookup cat with
  | none => rfl
  | some entries =>
    by_cases h : entries.isEmpty
    · simp [h]
    · simp [h, renderCategorySection, renderEntries_eq, entriesText]

theorem renderKnownCategories_eq (cfg : Config) (cats : List (String × List ChangelogEntry))
    (l : List String) :
    renderKnownCategories cfg cats l = some (joinMap (knownBlockText cfg cats) l) := by
  induction l with
  | nil => rfl
  | cons c rest ih => simp [renderKnownCategories, knownCategoryBlock_eq, ih, joinMap]

theorem renderUnknownCategories_eq (cfg : Config)
    (cats : List (String × List ChangelogEntry)) :
    renderUnknownCategories cfg cats = some (unknownText cfg cats) := by
  induction cats with
  | nil => rfl
  | cons ce rest ih =>
    obtain ⟨cat, entries⟩ := ce
    by_cases h : isKnownCategory cat || entries.isEmpty
    · simp [renderUnknownCategories, h, ih, unknownText, List.filter_cons, isRenderedUnknown]
    · simp [renderUnknownCategories, h, ih, unknownText, List.filter_cons, isRenderedUnknown,
            renderCategorySection, renderEntries_eq, entriesText, joinMap]

theorem FormatMarkdown_eq (resp : ChangelogResponse) (fromRef toRef : String) (cfg : Config) :
    FormatMarkdown resp fromRef toRef cfg = some (markdownText resp fromRef toRef cfg) := by
  simp [FormatMarkdown, renderKnownCategories_eq, renderUnknownCategories_eq, markdownText]

/-- C1: every commit link rendered by `FormatMarkdown` displays the first
7 characters of the entry's hash, or the full hash when it is shorter than
7 characters, and `FormatMarkdown` never panics (`isSome`), whatever the
hash lengths. -/
theorem claim_c1_short_sha_safe :
    (∀ sha : String, shortSHA sha = some (if sha.length < 7 then sha else sha.take 7)) ∧
    (∀ (resp : ChangelogResponse) (fromRef toRef : String) (cfg : Config),
      (FormatMarkdown resp fromRef toRef cfg).isSome) := by
  constructor
  · intro sha
    rw [shortSHA_eq]
    unfold shortDisplay
    by_cases h : sha.length > 7
    · rw [if_pos h, if_neg (by omega)]
    · by_cases h7 : sha.length < 7
      · rw [if_neg h, if_pos h7]
      · rw [if_neg h, if_neg h7, strTake_all (by omega)]
  · intro resp fromRef toRef cfg
    rw [FormatMarkdown_eq]
    rfl

theorem keepEntry_of_pos {cfg : Config} (hpos : 0 < cfg.minScore) (e : ChangelogEntry) :
    keepEntry cfg e = decide (cfg.minScore ≤ e.importanceScore) := by
  have h1 : decide (e.importanceScore < cfg.minScore) =
      !decide (cfg.minScore ≤ e.importanceScore) := by
    by_cases hle : cfg.minScore ≤ e.importanceScore
    · simp [hle, not_lt.mpr hle]
    · simp [hle, lt_of_not_le hle]
  unfold keepEntry
  rw [decide_eq_true hpos, Bool.true_and, h1, Bool.not_not]

/-- C5: with a configured minimum score threshold strictly above 0, the
known-category block renders exactly the entries whose score is at least
the threshold, while the category header is emitted based on the
pre-filter entry list being non-empty (so a category whose entries all
fall below the threshold still emits its header with no entries). -/
theorem claim_c5_min_score_filter (cfg : Config)
    (cats : List (String × List ChangelogEntry)) (cat : String)
    (entries : List ChangelogEntry) (hl : cats.lookup cat = some entries)
    (hpos : 0 < cfg.minScore) (hne : entries ≠ []) :
    knownCategoryBlock cfg cats cat =
      some ("## " ++ emojiFor cat ++ " " ++ cat ++ "\n\n" ++
        joinMap (entryText cfg)
          (entries.filter fun e => cfg.minScore ≤ e.importanceScore)) := by
  rw [knownCategoryBlock_eq]
  unfold knownBlockText
  rw [hl]
  simp only [List.isEmpty_eq_true, hne, if_false]
  congr 2
  unfold entriesText
  congr 1
  exact List.filter_congr fun e _ => keepEntry_of_pos hpos e

/-- Witness for C5 at threshold 7 with scores 8.5, 6.0, 9.0: only the
8.5 and 9.0 entries pass the filter, the header is still emitted. -/
theorem claim_c5_min_score_filter_witness :
    knownCategoryBlock ⟨"o", "r", false, false, 7⟩
        [("Features",
          [⟨"aaaaaaaa", "A", "", "", 17 / 2⟩, ⟨"bbbbbbbb", "B", "", "", 6⟩,
           ⟨"cccccccc", "C", "", "", 9⟩])] "Features" =
      some ("## " ++ emojiFor "Features" ++ " " ++ "Features" ++ "\n\n" ++
        joinMap (entryText ⟨"o", "r", false, false, 7⟩)
          ([(⟨"aaaaaaaa", "A", "", "", 17 / 2⟩ : ChangelogEntry),
            ⟨"bbbbbbbb", "B", "", "", 6⟩, ⟨"cccccccc", "C", "", "", 9⟩].filter
            fun e => (⟨"o", "r", false, false, 7⟩ : Config).minScore ≤ e.importanceScore)) :=
  claim_c5_min_score_filter _ _ _ _ rfl (by norm_num) (by simp)

theorem joinMap_congr {α : Type} {f g : α → String} :
    ∀ {l : List α}, (∀ a ∈ l, f a = g a) → joinMap f l = joinMap g l
  | [], _ => rfl
  | a :: t, h => by
    rw [joinMap, joinMap, h a (by simp), joinMap_congr fun x hx => h x (by simp [hx])]

theorem lookup_eq_of_perm {α β : Type} [BEq α] [LawfulBEq α] {l₁ l₂ : List (α × β)}
    (h : l₁.Perm l₂) :
    (l₁.map Prod.fst).Nodup → ∀ k : α, l₁.lookup k = l₂.lookup k := by
  induction h with
  | nil => intro _ k; rfl
  | cons x h ih =>
    intro nd k
    obtain ⟨a, b⟩ := x
    simp only [List.map_cons, List.nodup_cons] at nd
    cases hk : k == a <;> simp [List.lookup_cons, hk, ih nd.2 k]
  | swap x y t =>
    intro nd k
    obtain ⟨a, b⟩ := x
    obtain ⟨c, d⟩ := y
    rw [List.map_cons, List.map_cons] at nd
    have hca : c ≠ a := by
      intro h
      exact (List.nodup_cons.mp nd).1 (by simp [h])
    cases hkc : k == c <;> cases hka : k == a <;>
        simp only [List.lookup_cons, hkc, hka]
    exact absurd ((eq_of_beq hkc).symm.trans (eq_of_beq hka)) hca
  | trans h1 h2 ih1 ih2 =>
    intro nd k
    have nd2 := ((h1.map Prod.fst).nodup_iff).mp nd
    rw [ih1 nd k, ih2 nd2 k]

theorem perm_eq_of_length_le_one {α : Type} {l l' : List α} (h : l.Perm l')
    (hle : l.length ≤ 1) : l = l' := by
  cases l with
  | nil => exact ((List.perm_nil.mp h.symm)).symm
  | cons a t =>
    cases t with
    | nil => exact List.singleton_perm.mp h
    | cons b t2 => simp at hle

/-- C2 (amended): markdown rendering is a function of the
`ChangelogResponse` map value — independent of the unspecified map
iteration order — provided at most one non-empty category lies outside
the fixed known-category vocabulary.  (With two or more such categories
the output depends on the iteration order; see the counterexample.) -/
theorem claim_c2_markdown_deterministic (resp resp' : ChangelogResponse)
    (fromRef toRef : String) (cfg : Config)
    (hsum : resp.summary = resp'.summary)
    (hhl : resp.highlights = resp'.highlights)
    (hperm : resp.categories.Perm resp'.categories)
    (hnd : (resp.categories.map Prod.fst).Nodup)
    (hle : (resp.categories.filter isRenderedUnknown).length ≤ 1) :
    FormatMarkdown resp fromRef toRef cfg = FormatMarkdown resp' fromRef toRef cfg := by
  rw [FormatMarkdown_eq, FormatMarkdown_eq]
  unfold markdownText
  rw [hsum, hhl]
  have hk : joinMap (knownBlockText cfg resp.categories) CategoryOrder =
      joinMap (knownBlockText cfg resp'.categories) CategoryOrder :=
    joinMap_congr fun c _ => by
      unfold knownBlockText
      rw [lookup_eq_of_perm hperm hnd c]
  have hu : unknownText cfg resp.categories = unknownText cfg resp'.categories := by
    unfold unknownText
    rw [perm_eq_of_length_le_one (hperm.filter isRenderedUnknown) hle]
  rw [hk, hu]

/-- Witness for C2: a response with one known and one unknown category
renders identically under both iteration orders of its category map. -/
theorem claim_c2_markdown_deterministic_witness :
    FormatMarkdown
        { summary := "", highlights := [],
          categories := [("Features", [⟨"abcdefgh", "T", "", "", 5⟩]),
                         ("Zzz", [⟨"abcdefgh", "T", "", "", 5⟩])] } "x" "y"
        ⟨"o", "r", false, false, 0⟩ =
      FormatMarkdown
        { summary := "", highlights := [],
          categories := [("Zzz", [⟨"abcdefgh", "T", "", "", 5⟩]),
                         ("Features", [⟨"abcdefgh", "T", "", "", 5⟩])] } "x" "y"
        ⟨"o", "r", false, false, 0⟩ :=
  claim_c2_markdown_deterministic _ _ _ _ _ rfl rfl
    (List.Perm.swap _ _ []) (by decide) (by decide)

/-- Counterexample to C2 as stated: with two non-empty categories outside
the fixed vocabulary, the same `ChangelogResponse` map value (the two
category lists are permutations of each other, i.e. the same Go map)
rendered under two different map iteration orders produces different
bytes. -/
theorem claim_c2_counterexample :
    ({ summary := "", highlights := [],
       categories := [("Aaa", [⟨"abcdefgh", "T", "", "", 5⟩]),
                      ("Bbb", [⟨"abcdefgh", "T", "", "", 5⟩])] } :
        ChangelogResponse).categories.Perm
      ({ summary := "", highlights := [],
         categories := [("Bbb", [⟨"abcdefgh", "T", "", "", 5⟩]),
                        ("Aaa", [⟨"abcdefgh", "T", "", "", 5⟩])] } :
          ChangelogResponse).categories ∧
    FormatMarkdown
        { summary := "", highlights := [],
          categories := [("Aaa", [⟨"abcdefgh", "T", "", "", 5⟩]),
                         ("Bbb", [⟨"abcdefgh", "T", "", "", 5⟩])] } "x" "y"
        ⟨"o", "r", false, false, 0⟩ ≠
      FormatMarkdown
        { summary := "", highlights := [],
          categories := [("Bbb", [⟨"abcdefgh", "T", "", "", 5⟩]),
                         ("Aaa", [⟨"abcdefgh", "T", "", "", 5⟩])] } "x" "y"
        ⟨"o", "r", false, false, 0⟩ :=
  ⟨List.Perm.swap _ _ [], by decide⟩

theorem segmentsLoop_pairs (fetch : String → String → Except String (List CommitData)) :
    ∀ (refs : List ReleaseRef) (segs : List TimelineRelease),
      segmentsLoop fetch refs = .ok segs →
      segs.map (fun s => (s.fromRef, s.toRef)) =
        (refs.zip refs.tail).map (fun p => (p.1.name, p.2.name))
  | [], segs, h => by
    simp only [segmentsLoop, Except.ok.injEq] at h
    subst h
    rfl
  | [a], segs, h => by
    simp only [segmentsLoop, Except.ok.injEq] at h
    subst h
    rfl
  | a :: b :: rest, segs, h => by
    rw [segmentsLoop] at h
    cases hf : fetch a.name b.name with
    | error e => rw [hf] at h; cases h
    | ok commits =>
      rw [hf] at h
      cases hr : segmentsLoop fetch (b :: rest) with
      | error e => rw [hr] at h; cases h
      | ok rem =>
        rw [hr, Except.ok.injEq] at h
        subst h
        have ih := segmentsLoop_pairs fetch (b :: rest) rem hr
        simp only [List.map_cons, List.tail_cons, List.zip_cons_cons, ih]

theorem chain_pairs :
    ∀ l : List ReleaseRef,
      List.Chain' (fun p q : String × String => p.2 = q.1)
        ((l.zip l.tail).map (fun p => (p.1.name, p.2.name)))
  | [] => by simp
  | [a] => by simp
  | a :: b :: rest => by
    have ih := chain_pairs (b :: rest)
    refine List.Chain'.cons' ih ?_
    intro y hy
    cases rest with
    | nil => simp at hy
    | cons c rest2 =>
      simp only [List.tail_cons, List.zip_cons_cons, List.zipWith_cons_cons, List.map_cons,
        List.head?_cons, Option.mem_def, Option.some.injEq] at hy
      subst hy
      rfl

/-- C3: when timeline resolution succeeds on N reference points, it
produces exactly N-1 release segments, and each segment's `to` reference
equals the next segment's `from` reference (contiguous, non-overlapping
segments). -/
theorem claim_c3_timeline_segments
    (fetch : String → String → Except String (List CommitData))
    (tags : List TagInfo) (releases : List ReleaseInfo) (lo hi : Int)
    (segs : List TimelineRelease)
    (h : GetTimelineReleases fetch tags releases lo hi = .ok segs) :
    segs.length + 1 = (GetReleaseRefsInTimeline tags releases lo hi).length ∧
    ∀ (i : Nat) (h1 : i < segs.length - 1),
      (segs.get ⟨i, by omega⟩).toRef = (segs.get ⟨i + 1, by omega⟩).fromRef := by
  unfold GetTimelineReleases at h
  by_cases h0 : (GetReleaseRefsInTimeline tags releases lo hi).length = 0
  · rw [if_pos h0] at h
    cases h
  · rw [if_neg h0] at h
    have hp := segmentsLoop_pairs fetch _ _ h
    have hL : segs.length =
        (GetReleaseRefsInTimeline tags releases lo hi).length - 1 := by
      have hlen := congrArg List.length hp
      simp only [List.length_map, List.length_zip, List.length_tail] at hlen
      rw [hlen]
      exact min_eq_right (Nat.sub_le _ _)
    refine ⟨by omega, ?_⟩
    have hchain : List.Chain' (fun s t => s.toRef = t.fromRef) segs := by
      have hc : List.Chain' (fun p q : String × String => p.2 = q.1)
          (segs.map fun s => (s.fromRef, s.toRef)) := by
        rw [hp]
        exact chain_pairs _
      exact (List.chain'_map _).mp hc
    intro i h1
    exact List.chain'_iff_get.mp hchain i h1

/-- Witness for C3: three reference points in the window with a fetch
that always succeeds produce two contiguous segments. -/
theorem claim_c3_timeline_segments_witness :
    (GetTimelineReleases (fun _ _ => .ok [])
        [⟨"v1", 1⟩, ⟨"v2", 2⟩, ⟨"v3", 3⟩] [] 0 10 =
      .ok [⟨"v1", "v2", 1, 2, 0, []⟩, ⟨"v2", "v3", 2, 3, 0, []⟩]) ∧
    ([⟨"v1", "v2", 1, 2, 0, []⟩, ⟨"v2", "v3", 2, 3, 0, []⟩] :
        List TimelineRelease).length + 1 =
      (GetReleaseRefsInTimeline [⟨"v1", 1⟩, ⟨"v2", 2⟩, ⟨"v3", 3⟩] [] 0 10).length ∧
    ∀ (i : Nat)
      (h1 : i < ([⟨"v1", "v2", 1, 2, 0, []⟩, ⟨"v2", "v3", 2, 3, 0, []⟩] :
        List TimelineRelease).length - 1),
      (([⟨"v1", "v2", 1, 2, 0, []⟩, ⟨"v2", "v3", 2, 3, 0, []⟩] :
          List TimelineRelease).get ⟨i, by omega⟩).toRef =
        (([⟨"v1", "v2", 1, 2, 0, []⟩, ⟨"v2", "v3", 2, 3, 0, []⟩] :
            List TimelineRelease).get ⟨i + 1, by omega⟩).fromRef := by
  have hok : GetTimelineReleases (fun _ _ => .ok [])
      [⟨"v1", 1⟩, ⟨"v2", 2⟩, ⟨"v3", 3⟩] [] 0 10 =
      .ok [⟨"v1", "v2", 1, 2, 0, []⟩, ⟨"v2", "v3", 2, 3, 0, []⟩] := by rfl
  exact ⟨hok, claim_c3_timeline_segments _ _ _ _ _ _ hok⟩

/-- C9: domain-empty conditions are hard errors, never silent empty
output — an empty commit range makes `Generate` return the
"no commits found" error (so no changelog value exists to write), and an
empty reference-point set after window filtering makes
`GetTimelineReleases` return the "no tags or releases found" error with
no segments. -/
theorem claim_c9_empty_domain_errors :
    (∀ (fetch : String → String → Except String (List CommitData))
       (llmGen : ChangelogRequest → Except String ChangelogResponse)
       (cfg : Config) (fromRef toRef : String),
      fetch fromRef toRef = .ok [] →
      Generate fetch llmGen cfg fromRef toRef =
        some (.error ("no commits found in range " ++ fromRef ++ ".." ++ toRef))) ∧
    (∀ (fetch : String → String → Except String (List CommitData))
       (tags : List TagInfo) (releases : List ReleaseInfo) (lo hi : Int),
      GetReleaseRefsInTimeline tags releases lo hi = [] →
      GetTimelineReleases fetch tags releases lo hi =
        .error ("no tags or releases found between " ++ fmtDate lo ++ " and " ++
          fmtDate hi)) := by
  constructor
  · intro fetch llmGen cfg fromRef toRef h
    simp [Generate, h]
  · intro fetch tags releases lo hi h
    simp [GetTimelineReleases, h]

/-- Witness for C9: both empty-domain errors at concrete inputs. -/
theorem claim_c9_empty_domain_errors_witness :
    Generate (fun _ _ => .ok []) (fun _ => .error "e") ⟨"o", "r", false, false, 0⟩
        "a" "b" =
      some (.error ("no commits found in range " ++ "a" ++ ".." ++ "b")) ∧
    GetTimelineReleases (fun _ _ => .ok []) [] [] 0 1 =
      .error ("no tags or releases found between " ++ fmtDate 0 ++ " and " ++ fmtDate 1) :=
  ⟨claim_c9_empty_domain_errors.1 _ _ _ _ _ rfl,
   claim_c9_empty_domain_errors.2 _ [] [] 0 1 rfl⟩

theorem commitBlocks_isSome (i : Nat) (cs : List CommitInfo)
    (h : ∀ c ∈ cs, 8 ≤ c.sha.length) : (commitBlocks i cs).isSome := by
  induction cs generalizing i with
  | nil => rfl
  | cons c rest ih =>
    have h8 : 8 ≤ c.sha.length := h c (by simp)
    have hr := ih (i + 1) fun x hx => h x (by simp [hx])
    cases hb : commitBlocks (i + 1) rest with
    | none => rw [hb] at hr; cases hr
    | some r => simp [commitBlocks, commitBlock, goSlice, h8, hb]

/-- C10: `BuildChangelogPrompt` slices each commit SHA to 8 characters
with no length guard — it is total when every SHA has at least 8
characters, and panics (models as `none`) on an input whose SHA is
shorter than 8 characters. -/
theorem claim_c10_prompt_slice_panic :
    (∀ req : ChangelogRequest,
      (∀ c ∈ req.commits, 8 ≤ c.sha.length) → (BuildChangelogPrompt req).isSome) ∧
    BuildChangelogPrompt
        { commits := [⟨"abc", "m", "a", 0, [], "", ""⟩],
          repoName := "r", fromRef := "x", toRef := "y" } = none := by
  constructor
  · intro req h
    have hb := commitBlocks_isSome 0 req.commits h
    cases hbb : commitBlocks 0 req.commits with
    | none => rw [hbb] at hb; cases hb
    | some b => simp [BuildChangelogPrompt, hbb]
  · rfl

/-- Witness for C10's totality part: a request whose only SHA has exactly
8 characters builds a prompt. -/
theorem claim_c10_prompt_slice_panic_witness :
    (BuildChangelogPrompt
        { commits := [⟨"abcdefgh", "m", "a", 0, [], "", ""⟩],
          repoName := "r", fromRef := "x", toRef := "y" }).isSome :=
  claim_c10_prompt_slice_panic.1 _ (by decide)

theorem goHasPre_plus_minus {l : String} (h : goHasPre l "+" = true) :
    goHasPre l "-" = false := by
  unfold goHasPre at h ⊢
  cases hd : l.data with
  | nil => rw [hd] at h; simp [List.isPrefixOf] at h
  | cons c t =>
    rw [hd] at h
    simp only [show ("+" : String).data = ['+'] from rfl,
      show ("-" : String).data = ['-'] from rfl, List.isPrefixOf] at h ⊢
    simp_all
    subst h
    decide

theorem countDiffAux (lines : List String) : ∀ acc : Nat × Nat,
    lines.foldl (fun (acc : Nat × Nat) line =>
      if goHasPre line "+" && !(goHasPre line "+++") then (acc.1 + 1, acc.2)
      else if goHasPre line "-" && !(goHasPre line "---") then (acc.1, acc.2 + 1)
      else acc) acc =
    (acc.1 + (lines.filter fun l => goHasPre l "+" && !(goHasPre l "+++")).length,
     acc.2 + (lines.filter fun l => goHasPre l "-" && !(goHasPre l "---")).length) := by
  induction lines with
  | nil => intro acc; simp
  | cons l rest ih =>
    intro acc
    by_cases hp : (goHasPre l "+" && !(goHasPre l "+++")) = true
    · have hm : (goHasPre l "-" && !(goHasPre l "---")) = false := by
        have h1 : goHasPre l "+" = true := (Bool.and_eq_true _ _ |>.mp hp).1
        simp [goHasPre_plus_minus h1]
      simp only [List.foldl_cons, hp, if_true, ih, List.filter_cons, hm, if_false,
        List.length_cons]
      refine Prod.ext ?_ ?_ <;> simp <;> omega
    · by_cases hm : (goHasPre l "-" && !(goHasPre l "---")) = true
      · simp only [List.foldl_cons, hp, if_false, hm, if_true, ih, List.filter_cons,
          List.length_cons]
        refine Prod.ext ?_ ?_ <;> simp <;> omega
      · simp only [List.foldl_cons, hp, if_false, hm, ih, List.filter_cons]
        simp [hp, hm]

theorem countDiffLines_spec (lines : List String) :
    countDiffLines lines =
      ((lines.filter fun l => goHasPre l "+" && !(goHasPre l "+++")).length,
       (lines.filter fun l => goHasPre l "-" && !(goHasPre l "---")).length) := by
  have h := countDiffAux lines (0, 0)
  simpa [countDiffLines] using h

/-- C6: for every non-empty patch, `SummarizeDiff` reports exactly the
number of `+`-prefixed lines that are not the `+++` header and the number
of `-`-prefixed lines that are not the `---` header, and attaches the
first 10 lines as a sample with a truncation note exactly when the patch
exceeds 10 lines (the full patch, no note, otherwise). -/
theorem claim_c6_diff_summary (diff : String) (h : diff ≠ "") :
    SummarizeDiff diff =
      "+" ++ fmtNat ((goSplitLines diff).filter
          (fun l => goHasPre l "+" && !(goHasPre l "+++"))).length ++
      "/-" ++ fmtNat ((goSplitLines diff).filter
          (fun l => goHasPre l "-" && !(goHasPre l "---"))).length ++
      " lines. Sample:\n" ++
      (if (goSplitLines diff).length ≤ 10 then diff
       else String.intercalate "\n" ((goSplitLines diff).take 10) ++
         "\n... (" ++ fmtNat ((goSplitLines diff).length - 10) ++
         " more lines truncated)") := by
  unfold SummarizeDiff TruncateDiff
  rw [if_neg h, countDiffLines_spec]

/-- Witness for C6 on the patch from the repository's own test: 2 added
lines, 1 removed line, 9 lines in total so the sample is the full patch. -/
theorem claim_c6_diff_summary_witness :
    SummarizeDiff
        "--- a/file.go\n+++ b/file.go\n@@ -1,3 +1,5 @@\n+added line 1\n+added line 2\n existing line\n-removed line\n existing line 2\n" =
      "+" ++ fmtNat ((goSplitLines
          "--- a/file.go\n+++ b/file.go\n@@ -1,3 +1,5 @@\n+added line 1\n+added line 2\n existing line\n-removed line\n existing line 2\n").filter
          (fun l => goHasPre l "+" && !(goHasPre l "+++"))).length ++
      "/-" ++ fmtNat ((goSplitLines
          "--- a/file.go\n+++ b/file.go\n@@ -1,3 +1,5 @@\n+added line 1\n+added line 2\n existing line\n-removed line\n existing line 2\n").filter
          (fun l => goHasPre l "-" && !(goHasPre l "---"))).length ++
      " lines. Sample:\n" ++
      (if (goSplitLines
          "--- a/file.go\n+++ b/file.go\n@@ -1,3 +1,5 @@\n+added line 1\n+added line 2\n existing line\n-removed line\n existing line 2\n").length ≤ 10 then
        "--- a/file.go\n+++ b/file.go\n@@ -1,3 +1,5 @@\n+added line 1\n+added line 2\n existing line\n-removed line\n existing line 2\n"
       else String.intercalate "\n" ((goSplitLines
          "--- a/file.go\n+++ b/file.go\n@@ -1,3 +1,5 @@\n+added line 1\n+added line 2\n existing line\n-removed line\n existing line 2\n").take 10) ++
         "\n... (" ++ fmtNat ((goSplitLines
          "--- a/file.go\n+++ b/file.go\n@@ -1,3 +1,5 @@\n+added line 1\n+added line 2\n existing line\n-removed line\n existing line 2\n").length - 10) ++
         " more lines truncated)") :=
  claim_c6_diff_summary _ (by decide)

theorem summarizeDiff_ne {p : String} (h : p ≠ "") : SummarizeDiff p ≠ "" := by
  unfold SummarizeDiff
  rw [if_neg h]
  intro heq
  have hd := congrArg String.data heq
  simp only [String.data_append, show ("+" : String).data = ['+'] from rfl,
    show ("" : String).data = [] from rfl, List.cons_append, List.append_assoc] at hd
  exact (List.cons_ne_nil _ _) hd

theorem sigChangesAux (files : List FileChange) : ∀ acc : List String,
    files.foldl sigStep acc =
    acc ++ ((files.filter fun f =>
        decide (10 < f.additions + f.deletions) && !(f.patch == "") &&
        !(SummarizeDiff f.patch == "")).map
      fun f => f.filename ++ ": " ++ SummarizeDiff f.patch) := by
  induction files with
  | nil => intro acc; simp
  | cons f rest ih =>
    intro acc
    rw [List.foldl_cons]
    by_cases h1 : 10 < f.additions + f.deletions
    · by_cases h2 : f.patch = ""
      · have hs : sigStep acc f = acc := by simp [sigStep, h1, h2]
        rw [hs, ih, List.filter_cons]
        simp [h2]
      · by_cases h3 : SummarizeDiff f.patch = ""
        · have hs : sigStep acc f = acc := by simp [sigStep, h1, h2, h3]
          rw [hs, ih, List.filter_cons]
          simp [h3]
        · have hs : sigStep acc f = acc ++ [f.filename ++ ": " ++ SummarizeDiff f.patch] := by
            simp [sigStep, h1, h2, h3]
          rw [hs, ih, List.filter_cons]
          simp [h1, h2, h3]
    · have hs : sigStep acc f = acc := by simp [sigStep, h1]
      rw [hs, ih, List.filter_cons]
      simp [h1]

/-- C7: the per-commit structure prepared for the prompt is structurally
bounded — with more than 20 changed files the file-name list is exactly
the first 20 names plus one synthetic "... and N more files" entry, and
the diff-summary field concatenates at most the first 3 per-file
summaries, taken exactly from the files whose addition+deletion count
strictly exceeds 10 and whose patch is non-empty. -/
theorem claim_c7_prepare_bounds (c : CommitData) (h : 20 < c.filesChanged.length) :
    (prepareCommit c).filesChanged =
      (c.filesChanged.map fun f => f.filename).take 20 ++
        ["... and " ++ fmtNat (c.filesChanged.length - 20) ++ " more files"] ∧
    (prepareCommit c).diffSummary =
      String.intercalate "\n"
        (((c.filesChanged.filter fun f =>
            decide (10 < f.additions + f.deletions) && !(f.patch == "")).map
          fun f => f.filename ++ ": " ++ SummarizeDiff f.patch).take 3) := by
  have hfil : (c.filesChanged.filter fun f =>
      decide (10 < f.additions + f.deletions) && !(f.patch == "") &&
      !(SummarizeDiff f.patch == "")) =
      (c.filesChanged.filter fun f =>
        decide (10 < f.additions + f.deletions) && !(f.patch == "")) := by
    refine List.filter_congr fun f _ => ?_
    by_cases h1 : 10 < f.additions + f.deletions
    · by_cases h2 : f.patch = ""
      · simp [h1, h2]
      · simp [h1, h2, summarizeDiff_ne h2]
    · simp [h1]
  constructor
  · simp only [prepareCommit, List.length_map]
    rw [if_pos h]
  · simp only [prepareCommit, List.length_map]
    rw [sigChangesAux c.filesChanged [], List.nil_append, hfil]
    set L := (c.filesChanged.filter fun f =>
        decide (10 < f.additions + f.deletions) && !(f.patch == "")).map
      fun f => f.filename ++ ": " ++ SummarizeDiff f.patch with hL
    by_cases h0 : 0 < L.length
    · rw [if_pos h0]
      by_cases h3 : 3 < L.length
      · rw [if_pos h3]
      · rw [if_neg h3, List.take_of_length_le (by omega)]
    · rw [if_neg h0]
      have : L = [] := List.length_eq_zero.mp (by omega)
      rw [this]
      rfl

/-- Witness for C7 on a commit with 21 changed files: 20 names kept plus
the synthetic "... and 1 more files" entry. -/
theorem claim_c7_prepare_bounds_witness :
    (prepareCommit
        ⟨"s", "m", "a", 0, List.replicate 21 ⟨"f", "modified", 0, 0, ""⟩, 0, 0⟩).filesChanged =
      ((List.replicate 21 (⟨"f", "modified", 0, 0, ""⟩ : FileChange)).map
          fun f => f.filename).take 20 ++
        ["... and " ++
          fmtNat ((List.replicate 21 (⟨"f", "modified", 0, 0, ""⟩ : FileChange)).length - 20) ++
          " more files"] ∧
    (prepareCommit
        ⟨"s", "m", "a", 0, List.replicate 21 ⟨"f", "modified", 0, 0, ""⟩, 0, 0⟩).diffSummary =
      String.intercalate "\n"
        ((((List.replicate 21 (⟨"f", "modified", 0, 0, ""⟩ : FileChange)).filter fun f =>
            decide (10 < f.additions + f.deletions) && !(f.patch == "")).map
          fun f => f.filename ++ ": " ++ SummarizeDiff f.patch).take 3) :=
  claim_c7_prepare_bounds _ (by decide)

theorem lookup_mapReplace {k : String} {v : ReleaseRef} :
    ∀ m : List (String × ReleaseRef), m.any (fun p => p.1 = k) = true →
      (m.map fun p => if p.1 = k then (k, v) else p).lookup k = some v
  | [], h => by simp at h
  | (a, b) :: t, h => by
    rw [List.map_cons]
    by_cases hak : a = k
    · subst hak
      simp [List.lookup_cons]
    · have ht : t.any (fun p => p.1 = k) = true := by
        rw [List.any_cons] at h
        simpa [hak] using h
      have hk : (k == a) = false := by simp [Ne.symm hak]
      simp [List.lookup_cons, hak, hk, lookup_mapReplace t ht]

theorem lookup_append_right {k : String} :
    ∀ m l : List (String × ReleaseRef), m.lookup k = none →
      (m ++ l).lookup k = l.lookup k
  | [], _, _ => rfl
  | (a, b) :: t, l, h => by
    rw [List.cons_append]
    rw [List.lookup_cons] at h ⊢
    cases hk : k == a with
    | true => rw [hk] at h; simp at h
    | false => rw [hk] at h; exact lookup_append_right t l h

theorem any_eq_false_lookup {k : String} :
    ∀ m : List (String × ReleaseRef), m.any (fun p => p.1 = k) = false →
      m.lookup k = none
  | [], _ => rfl
  | (a, b) :: t, h => by
    rw [List.any_cons] at h
    simp only [Bool.or_eq_false_iff, decide_eq_false_iff_not] at h
    have hk : (k == a) = false := by simp [Ne.symm h.1]
    simp [List.lookup_cons, hk, any_eq_false_lookup t h.2]

theorem mapAssign_lookup_self (m : List (String × ReleaseRef)) (k : String)
    (v : ReleaseRef) : (mapAssign m k v).lookup k = some v := by
  unfold mapAssign
  by_cases h : m.any (fun p => p.1 = k) = true
  · rw [if_pos h]
    exact lookup_mapReplace m h
  · rw [if_neg h]
    have h0 : m.any (fun p => p.1 = k) = false := by
      cases hb : m.any (fun p => p.1 = k) with
      | true => exact absurd hb h
      | false => rfl
    rw [lookup_append_right m _ (any_eq_false_lookup m h0)]
    simp [List.lookup_cons]

theorem lookup_mapReplace_ne {k' k : String} (h : k' ≠ k) (v : ReleaseRef) :
    ∀ m : List (String × ReleaseRef),
      (m.map fun p => if p.1 = k then (k, v) else p).lookup k' = m.lookup k'
  | [] => rfl
  | (a, b) :: t => by
    rw [List.map_cons]
    by_cases hak : a = k
    · subst hak
      have h1 : (k' == a) = false := by simp [h]
      simp [List.lookup_cons, h1, lookup_mapReplace_ne h v t]
    · cases hk : k' == a with
      | true => simp [List.lookup_cons, hak, hk]
      | false => simp [List.lookup_cons, hak, hk, lookup_mapReplace_ne h v t]

theorem lookup_concat_ne {k' k : String} (h : k' ≠ k) (v : ReleaseRef) :
    ∀ m : List (String × ReleaseRef), (m ++ [(k, v)]).lookup k' = m.lookup k'
  | [] => by
    have h1 : (k' == k) = false := by simp [h]
    simp [List.lookup_cons, h1, List.lookup]
  | (a, b) :: t => by
    rw [List.cons_append]
    cases hk : k' == a with
    | true => simp [List.lookup_cons, hk]
    | false => simp [List.lookup_cons, hk, lookup_concat_ne h v t]

theorem mapAssign_lookup_ne {k' k : String} (h : k' ≠ k)
    (m : List (String × ReleaseRef)) (v : ReleaseRef) :
    (mapAssign m k v).lookup k' = m.lookup k' := by
  unfold mapAssign
  by_cases ha : m.any (fun p => p.1 = k) = true
  · rw [if_pos ha]
    exact lookup_mapReplace_ne h v m
  · rw [if_neg ha]
    exact lookup_concat_ne h v m

theorem keys_mapReplace (k : String) (v : ReleaseRef) :
    ∀ m : List (String × ReleaseRef),
      (m.map fun p => if p.1 = k then (k, v) else p).map Prod.fst = m.map Prod.fst
  | [] => rfl
  | (a, b) :: t => by
    by_cases hak : a = k
    · subst hak
      simp [keys_mapReplace a v t]
    · simp [hak, keys_mapReplace k v t]

theorem mapAssign_keys_nodup {m : List (String × ReleaseRef)} {k : String}
    {v : ReleaseRef} (h : (m.map Prod.fst).Nodup) :
    ((mapAssign m k v).map Prod.fst).Nodup := by
  unfold mapAssign
  by_cases ha : m.any (fun p => p.1 = k) = true
  · rw [if_pos ha, keys_mapReplace]
    exact h
  · rw [if_neg ha, List.map_append]
    refine List.Nodup.append h (List.nodup_singleton k) ?_
    intro x hx hx2
    simp only [List.map_cons, List.map_nil, List.mem_singleton] at hx2
    subst hx2
    obtain ⟨p, hp, hpk⟩ := List.mem_map.mp hx
    exact ha (List.any_eq_true.mpr ⟨p, hp, by simp [hpk]⟩)

theorem mapAssign_vals_named {m : List (String × ReleaseRef)} {k : String}
    {v : ReleaseRef} (h1 : ∀ p ∈ m, (p.2).name = p.1) (hv : v.name = k) :
    ∀ p ∈ mapAssign m k v, (p.2).name = p.1 := by
  unfold mapAssign
  by_cases ha : m.any (fun p => p.1 = k) = true
  · rw [if_pos ha]
    intro p hp
    obtain ⟨q, hq, hfq⟩ := List.mem_map.mp hp
    by_cases hqk : q.1 = k
    · rw [if_pos hqk] at hfq
      rw [← hfq]
      exact hv
    · rw [if_neg hqk] at hfq
      rw [← hfq]
      exact h1 q hq
  · rw [if_neg ha]
    intro p hp
    rcases List.mem_append.mp hp with hp1 | hp2
    · exact h1 p hp1
    · simp only [List.mem_singleton] at hp2
      subst hp2
      exact hv

theorem tagFold_inv (lo hi : Int) :
    ∀ (tags : List TagInfo) (m : List (String × ReleaseRef)),
      (∀ p ∈ m, (p.2).name = p.1) → (m.map Prod.fst).Nodup →
      (∀ p ∈ tags.foldl (tagStep lo hi) m, (p.2).name = p.1) ∧
      ((tags.foldl (tagStep lo hi) m).map Prod.fst).Nodup
  | [], m, h1, h2 => ⟨h1, h2⟩
  | tag :: rest, m, h1, h2 => by
    rw [List.foldl_cons]
    refine tagFold_inv lo hi rest (tagStep lo hi m tag) ?_ ?_
    · unfold tagStep
      split
      · exact mapAssign_vals_named h1 rfl
      · exact h1
    · unfold tagStep
      split
      · exact mapAssign_keys_nodup h2
      · exact h2

theorem relStep_inv (lo hi : Int) (rel : ReleaseInfo)
    {m : List (String × ReleaseRef)} (h1 : ∀ p ∈ m, (p.2).name = p.1)
    (h2 : (m.map Prod.fst).Nodup) :
    (∀ p ∈ relStep lo hi m rel, (p.2).name = p.1) ∧
    ((relStep lo hi m rel).map Prod.fst).Nodup := by
  unfold relStep
  split
  · exact ⟨h1, h2⟩
  · split
    · exact ⟨mapAssign_vals_named h1 rfl, mapAssign_keys_nodup h2⟩
    · exact ⟨h1, h2⟩

theorem relFold_preserve (lo hi : Int) (rel : ReleaseInfo)
    (hdraft : rel.draft = false) (hwin : inWindow lo hi rel.publishedAt = true) :
    ∀ (rs : List ReleaseInfo) (m : List (String × ReleaseRef)),
      (∀ r ∈ rs, r.tagName = rel.tagName → r = rel) →
      (∀ p ∈ m, (p.2).name = p.1) → (m.map Prod.fst).Nodup →
      m.lookup rel.tagName =
        some { name := rel.tagName, date := rel.publishedAt, type := "release",
               isPrerelease := rel.prerelease } →
      (rs.foldl (relStep lo hi) m).lookup rel.tagName =
        some { name := rel.tagName, date := rel.publishedAt, type := "release",
               isPrerelease := rel.prerelease } ∧
      (∀ p ∈ rs.foldl (relStep lo hi) m, (p.2).name = p.1) ∧
      ((rs.foldl (relStep lo hi) m).map Prod.fst).Nodup
  | [], m, _, h1, h2, hl => ⟨hl, h1, h2⟩
  | r :: rest, m, huniq, h1, h2, hl => by
    rw [List.foldl_cons]
    obtain ⟨h1s, h2s⟩ := relStep_inv lo hi r h1 h2
    refine relFold_preserve lo hi rel hdraft hwin rest (relStep lo hi m r)
      (fun x hx hxn => huniq x (by simp [hx]) hxn) h1s h2s ?_
    by_cases hrn : r.tagName = rel.tagName
    · have hr : r = rel := huniq r (by simp) hrn
      subst hr
      unfold relStep
      rw [hdraft]
      simp only [Bool.false_eq_true, if_false, hwin, if_true]
      exact mapAssign_lookup_self m r.tagName _
    · unfold relStep
      split
      · exact hl
      · split
        · rw [mapAssign_lookup_ne (fun he => hrn he.symm) m _]
          exact hl
        · exact hl

theorem relFold_found (lo hi : Int) (rel : ReleaseInfo)
    (hdraft : rel.draft = false) (hwin : inWindow lo hi rel.publishedAt = true) :
    ∀ (rs : List ReleaseInfo) (m : List (String × ReleaseRef)),
      (∀ r ∈ rs, r.tagName = rel.tagName → r = rel) → rel ∈ rs →
      (∀ p ∈ m, (p.2).name = p.1) → (m.map Prod.fst).Nodup →
      (rs.foldl (relStep lo hi) m).lookup rel.tagName =
        some { name := rel.tagName, date := rel.publishedAt, type := "release",
               isPrerelease := rel.prerelease } ∧
      (∀ p ∈ rs.foldl (relStep lo hi) m, (p.2).name = p.1) ∧
      ((rs.foldl (relStep lo hi) m).map Prod.fst).Nodup
  | [], _, _, hmem, _, _ => absurd hmem (by simp)
  | r :: rest, m, huniq, hmem, h1, h2 => by
    rw [List.foldl_cons]
    by_cases hr : r = rel
    · subst hr
      have hstep : relStep lo hi m r =
          mapAssign m r.tagName
            { name := r.tagName, date := r.publishedAt, type := "release",
              isPrerelease := r.prerelease } := by
        unfold relStep
        rw [hdraft]
        simp only [Bool.false_eq_true, if_false, hwin, if_true]
      rw [hstep]
      refine relFold_preserve lo hi r hdraft hwin rest _
        (fun x hx hxn => huniq x (by simp [hx]) hxn)
        (mapAssign_vals_named h1 rfl) (mapAssign_keys_nodup h2) ?_
      exact mapAssign_lookup_self m r.tagName _
    · have hmem2 : rel ∈ rest := by
        rcases List.mem_cons.mp hmem with he | hm
        · exact absurd he.symm hr
        · exact hm
      obtain ⟨h1s, h2s⟩ := relStep_inv lo hi r h1 h2
      exact relFold_found lo hi rel hdraft hwin rest (relStep lo hi m r)
        (fun x hx hxn => huniq x (by simp [hx]) hxn) hmem2 h1s h2s

theorem vals_unique (n : String) (v : ReleaseRef) :
    ∀ m : List (String × ReleaseRef), (∀ p ∈ m, (p.2).name = p.1) →
      (m.map Prod.fst).Nodup → m.lookup n = some v →
      ((m.map Prod.snd).filter (fun r => r.name == n)).length = 1 ∧
      ∀ r ∈ m.map Prod.snd, r.name = n → r = v
  | [], _, _, hl => by simp [List.lookup] at hl
  | (a, b) :: t, h1, h2, hl => by
    rw [List.lookup_cons] at hl
    have hbn : b.name = a := h1 (a, b) (by simp)
    rw [List.map_cons, List.nodup_cons] at h2
    cases hk : n == a with
    | true =>
      rw [hk] at hl
      have hv : b = v := by
        simpa using hl
      have han : a = n := (eq_of_beq hk).symm
      have htail : ∀ r ∈ t.map Prod.snd, ¬(r.name == n) = true := by
        intro r hr hrn
        obtain ⟨p, hp, hps⟩ := List.mem_map.mp hr
        have h1p := h1 p (by simp [hp])
        rw [hps] at h1p
        have : p.1 = n := by rw [← h1p]; exact eq_of_beq hrn
        exact h2.1 (by
          rw [han]
          rw [← this]
          exact List.mem_map.mpr ⟨p, hp, rfl⟩)
      constructor
      · rw [List.map_cons, List.filter_cons]
        have hbt : (b.name == n) = true := by
          rw [hbn, han]
          simp
        rw [hbt]
        simp only [if_true, List.length_cons]
        rw [List.filter_eq_nil_iff.mpr htail]
        rfl
      · intro r hr hrn
        rcases List.mem_cons.mp hr with he | hm
        · rw [he]; exact hv
        · exact absurd (by simp [hrn]) (htail r hm)
    | false =>
      rw [hk] at hl
      have hna : ¬(b.name == n) = true := by
        rw [hbn]
        intro hc
        have := (eq_of_beq hc).symm
        simp [this] at hk
      obtain ⟨ih1, ih2⟩ := vals_unique n v t
        (fun p hp => h1 p (by simp [hp])) h2.2 hl
      constructor
      · rw [List.map_cons, List.filter_cons]
        simp only [hna]
        simpa using ih1
      · intro r hr hrn
        rcases List.mem_cons.mp hr with he | hm
        · rw [he] at hrn
          exact absurd (by simp only [beq_iff_eq]; exact hrn) hna
        · exact ih2 r hm hrn

/-- C4: when a tag and a non-draft release share a name (both dated in
the window, the release being the only release of that name), the merge
produces exactly one reference point with that name, and it carries
kind `release`, the release's published date and its prerelease flag —
never two points and never kind `tag`. -/
theorem claim_c4_merge_release_priority (tags : List TagInfo)
    (releases : List ReleaseInfo) (lo hi : Int) (tag : TagInfo) (rel : ReleaseInfo)
    (htag : tag ∈ tags) (hrel : rel ∈ releases) (hname : rel.tagName = tag.name)
    (htw : inWindow lo hi tag.commitDate = true)
    (hrw : inWindow lo hi rel.publishedAt = true) (hdraft : rel.draft = false)
    (huniq : ∀ r ∈ releases, r.tagName = rel.tagName → r = rel) :
    ((GetReleaseRefsInTimeline tags releases lo hi).filter
        (fun r => r.name == tag.name)).length = 1 ∧
    ∀ r ∈ GetReleaseRefsInTimeline tags releases lo hi, r.name = tag.name →
      r.type = "release" ∧ r.date = rel.publishedAt ∧
      r.isPrerelease = rel.prerelease := by
  obtain ⟨hi1, hi2⟩ := tagFold_inv lo hi tags [] (by simp) (by simp)
  obtain ⟨hlk, hj1, hj2⟩ :=
    relFold_found lo hi rel hdraft hrw releases _ huniq hrel hi1 hi2
  obtain ⟨hcount, hallv⟩ := vals_unique rel.tagName _ _ hj1 hj2 hlk
  have hperm :
      (GetReleaseRefsInTimeline tags releases lo hi).Perm
        ((releases.foldl (relStep lo hi) (tags.foldl (tagStep lo hi) [])).map
          Prod.snd) := by
    unfold GetReleaseRefsInTimeline
    exact List.perm_insertionSort _ _
  constructor
  · rw [← hname]
    rw [List.Perm.length_eq (hperm.filter (fun r => r.name == rel.tagName))]
    exact hcount
  · intro r hr hrn
    rw [← hname] at hrn
    have hrv := hperm.mem_iff.mp hr
    have := hallv r hrv hrn
    rw [this]
    exact ⟨rfl, rfl, rfl⟩

/-- Witness for C4: tag `v1` (commit date 1) and a non-draft prerelease
`v1` (published date 2) inside the window merge to a single
release-kind reference point. -/
theorem claim_c4_merge_release_priority_witness :
    ((GetReleaseRefsInTimeline [⟨"v1", 1⟩] [⟨"v1", 2, false, true⟩] 0 10).filter
        (fun r => r.name == "v1")).length = 1 ∧
    ∀ r ∈ GetReleaseRefsInTimeline [⟨"v1", 1⟩] [⟨"v1", 2, false, true⟩] 0 10,
      r.name = "v1" →
      r.type = "release" ∧
      r.date = (⟨"v1", 2, false, true⟩ : ReleaseInfo).publishedAt ∧
      r.isPrerelease = (⟨"v1", 2, false, true⟩ : ReleaseInfo).prerelease :=
  claim_c4_merge_release_priority [⟨"v1", 1⟩] [⟨"v1", 2, false, true⟩] 0 10
    ⟨"v1", 1⟩ ⟨"v1", 2, false, true⟩ (by simp) (by simp) rfl (by decide) (by decide)
    rfl (fun r hr _ => by simpa using hr)

theorem dropWhile_idem (p : Char → Bool) (l : List Char) :
    (l.dropWhile p).dropWhile p = l.dropWhile p := by
  induction l with
  | nil => rfl
  | cons c t ih =>
    by_cases h : p c = true
    · simp [List.dropWhile_cons, h, ih]
    · simp [List.dropWhile_cons, h]

theorem head_false_of_dropWhile_eq {p : Char → Bool} {l : List Char}
    (h : l.dropWhile p = l) : ∀ c ∈ l.head?, p c = false := by
  intro c hc
  cases l with
  | nil => simp at hc
  | cons a t =>
    simp only [List.head?_cons, Option.mem_def, Option.some.injEq] at hc
    rw [← hc]
    by_cases hp : p a = true
    · rw [List.dropWhile_cons, if_pos hp] at h
      have hle := (List.dropWhile_suffix (l := t) p).length_le
      have hlen := congrArg List.length h
      simp only [List.length_cons] at hlen
      omega
    · simpa using hp

theorem trimL_no {l : List Char} (h : ∀ c ∈ l.head?, goIsSpace c = false) :
    l.dropWhile goIsSpace = l := by
  cases l with
  | nil => rfl
  | cons c t =>
    have hc := h c (by simp)
    simp [List.dropWhile_cons, hc]

theorem trimBoth_no {l : List Char} (hh : ∀ c ∈ l.head?, goIsSpace c = false)
    (hl : ∀ c ∈ l.getLast?, goIsSpace c = false) :
    ((l.dropWhile goIsSpace).reverse.dropWhile goIsSpace).reverse = l := by
  rw [trimL_no hh, trimL_no (by rw [List.head?_reverse]; exact hl),
      List.reverse_reverse]

theorem trimR_headFixed {l : List Char} (h : l.dropWhile goIsSpace = l) :
    ((l.reverse.dropWhile goIsSpace).reverse).dropWhile goIsSpace =
      (l.reverse.dropWhile goIsSpace).reverse := by
  apply trimL_no
  intro c hc
  have hpre : (l.reverse.dropWhile goIsSpace).reverse <+: l := by
    have hs := (List.dropWhile_suffix (l := l.reverse) goIsSpace).reverse
    rwa [List.reverse_reverse] at hs
  obtain ⟨t, ht⟩ := hpre
  have hR : (l.reverse.dropWhile goIsSpace).reverse ≠ [] := by
    intro hnil
    rw [hnil] at hc
    simp at hc
  have hhead : l.head? = some c := by
    rw [← ht, List.head?_append_of_ne_nil _ hR]
    exact hc
  exact head_false_of_dropWhile_eq h c hhead

theorem goTrimSpace_idem (s : String) :
    goTrimSpace (goTrimSpace s) = goTrimSpace s := by
  apply String.ext
  show ((((((s.data.dropWhile goIsSpace).reverse.dropWhile goIsSpace).reverse).dropWhile
      goIsSpace).reverse).dropWhile goIsSpace).reverse =
    ((s.data.dropWhile goIsSpace).reverse.dropWhile goIsSpace).reverse
  rw [trimR_headFixed (dropWhile_idem goIsSpace s.data), List.reverse_reverse,
      dropWhile_idem]

theorem goTrimPre_no {s p : String} (h : goHasPre s p = false) : goTrimPre s p = s := by
  unfold goTrimPre
  simp [h]

theorem goTrimSuf_no {s p : String} (h : goHasSuf s p = false) : goTrimSuf s p = s := by
  unfold goTrimSuf
  simp [h]

theorem goHasPre_json_of_bt {s : String} (h : goHasPre s "```" = false) :
    goHasPre s "```json" = false := by
  unfold goHasPre at h ⊢
  cases hb : ("```json" : String).data.isPrefixOf s.data with
  | false => rfl
  | true =>
    exfalso
    have hp := List.isPrefixOf_iff_prefix.mp hb
    have h3 : ("```" : String).data <+: ("```json" : String).data :=
      ⟨['j', 's', 'o', 'n'], rfl⟩
    have h4 := List.isPrefixOf_iff_prefix.mpr (h3.trans hp)
    rw [h] at h4
    cases h4

theorem goCleanup_fence (s : String)
    (h1 : goHasPre (goTrimSpace s) "```" = false)
    (h2 : goHasSuf (goTrimSpace s) "```" = false) :
    goCleanup ("```json\n" ++ s ++ "\n```") = goCleanup s := by
  have e1 : ("```json\n" : String).data = ['`', '`', '`', 'j', 's', 'o', 'n', '\n'] := rfl
  have e2 : ("\n```" : String).data = ['\n', '`', '`', '`'] := rfl
  have hWdata : ("```json\n" ++ s ++ "\n```").data =
      '`' :: '`' :: '`' :: 'j' :: 's' :: 'o' :: 'n' :: '\n' ::
        (s.data ++ ['\n', '`', '`', '`']) := by
    simp [String.data_append, e1, e2]
  have hA : goTrimSpace ("```json\n" ++ s ++ "\n```") =
      "```json\n" ++ s ++ "\n```" := by
    apply String.ext
    show ((("```json\n" ++ s ++ "\n```").data.dropWhile goIsSpace).reverse.dropWhile
        goIsSpace).reverse = ("```json\n" ++ s ++ "\n```").data
    apply trimBoth_no
    · rw [hWdata]
      intro c hc
      simp only [List.head?_cons, Option.mem_def, Option.some.injEq] at hc
      rw [← hc]
      decide
    · have hW2 : ("```json\n" ++ s ++ "\n```").data =
          (['`', '`', '`', 'j', 's', 'o', 'n', '\n'] ++ s.data ++ ['\n', '`', '`']) ++
            ['`'] := by
        rw [hWdata]
        simp
      rw [hW2, List.getLast?_append]
      intro c hc
      have hc2 : some '`' = some c := hc
      rw [← Option.some.inj hc2]
      decide
  have hB : goTrimPre ("```json\n" ++ s ++ "\n```") "```json" =
      ⟨'\n' :: (s.data ++ ['\n', '`', '`', '`'])⟩ := by
    unfold goTrimPre
    have hpre : goHasPre ("```json\n" ++ s ++ "\n```") "```json" = true := by
      unfold goHasPre
      apply List.isPrefixOf_iff_prefix.mpr
      rw [hWdata]
      exact ⟨'\n' :: (s.data ++ ['\n', '`', '`', '`']), rfl⟩
    rw [hpre]
    simp only [if_true]
    apply String.ext
    rw [hWdata]
    rfl
  have hC : goTrimPre ⟨'\n' :: (s.data ++ ['\n', '`', '`', '`'])⟩ "```" =
      ⟨'\n' :: (s.data ++ ['\n', '`', '`', '`'])⟩ := by
    apply goTrimPre_no
    unfold goHasPre
    rfl
  have hD : goTrimSuf ⟨'\n' :: (s.data ++ ['\n', '`', '`', '`'])⟩ "```" =
      ⟨'\n' :: (s.data ++ ['\n'])⟩ := by
    unfold goTrimSuf
    have hshape : ('\n' :: (s.data ++ ['\n', '`', '`', '`'])) =
        ('\n' :: (s.data ++ ['\n'])) ++ ['`', '`', '`'] := by
      simp
    have hsuf : goHasSuf ⟨'\n' :: (s.data ++ ['\n', '`', '`', '`'])⟩ "```" = true := by
      unfold goHasSuf
      apply List.isSuffixOf_iff_suffix.mpr
      exact ⟨'\n' :: (s.data ++ ['\n']), by simpa using hshape.symm⟩
    rw [hsuf]
    simp only [if_true]
    apply String.ext
    show List.take _ _ = _
    have hlen : ('\n' :: (s.data ++ ['\n', '`', '`', '`'])).length -
        ("```" : String).data.length = ('\n' :: (s.data ++ ['\n'])).length := by
      simp
    rw [hlen, hshape, List.take_left]
  have hfin : goTrimSpace ⟨'\n' :: (s.data ++ ['\n'])⟩ = goTrimSpace s := by
    apply String.ext
    show ((('\n' :: (s.data ++ ['\n'])).dropWhile goIsSpace).reverse.dropWhile
        goIsSpace).reverse =
      ((s.data.dropWhile goIsSpace).reverse.dropWhile goIsSpace).reverse
    rw [List.dropWhile_cons, if_pos (by decide), List.dropWhile_append]
    by_cases hX : (s.data.dropWhile goIsSpace).isEmpty = true
    · rw [if_pos hX]
      rw [List.isEmpty_iff.mp hX]
      rfl
    · rw [if_neg hX, List.reverse_append]
      show ((['\n'] ++ (s.data.dropWhile goIsSpace).reverse).dropWhile
          goIsSpace).reverse = _
      rw [List.cons_append, List.nil_append, List.dropWhile_cons, if_pos (by decide)]
  unfold goCleanup
  rw [hA, hB, hC, hD, hfin, goTrimPre_no (goHasPre_json_of_bt h1), goTrimPre_no h1,
      goTrimSuf_no h2, goTrimSpace_idem]

/-- C8: for a payload whose trimmed form neither begins nor ends with
triple backticks, wrapping it in a leading ` ```json ` fence and a
trailing ` ``` ` fence parses to exactly the same value as the unwrapped
payload (for any decoding of the cleaned text, in particular the JSON
decoding into `ChangelogResponse`). -/
theorem claim_c8_fence_roundtrip {R : Type} (unmarshal : String → Except String R)
    (s : String) (r : R)
    (h1 : goHasPre (goTrimSpace s) "```" = false)
    (h2 : goHasSuf (goTrimSpace s) "```" = false)
    (hv : unmarshal (goCleanup s) = .ok r) :
    ParseChangelogResponse unmarshal ("```json\n" ++ s ++ "\n```") = .ok r ∧
    ParseChangelogResponse unmarshal s = .ok r := by
  unfold ParseChangelogResponse
  rw [goCleanup_fence s h1 h2, hv]
  exact ⟨rfl, rfl⟩

/-- Witness for C8: the payload `{}` parses to the same value fenced and
unfenced. -/
theorem claim_c8_fence_roundtrip_witness :
    ParseChangelogResponse
        (fun str => if str = "\x7b\x7d" then Except.ok 0 else Except.error "bad")
        ("```json\n" ++ "\x7b\x7d" ++ "\n```") = Except.ok 0 ∧
    ParseChangelogResponse
        (fun str => if str = "\x7b\x7d" then Except.ok 0 else Except.error "bad")
        "\x7b\x7d" = Except.ok 0 :=
  claim_c8_fence_roundtrip _ "\x7b\x7d" 0 (by decide) (by decide) (by rfl)
